import Mathlib

set_option maxRecDepth 8000
set_option maxHeartbeats 1600000

/-!
Verification of the AutoML core of the TensorFlow.js AutoML Studio
(`src/lib/ml-utils.ts`): configuration generation, cross-validation fold
layout, the trial loop of `runAutoML`, the model catalog, and
`splitFeatureTarget`.

Numeric hyperparameters (learning rates, dropout rates, metric values) are
modelled as rationals; machine learning training itself is external
(TensorFlow.js), so the per-trial and per-fold training/evaluation outcomes
are abstracted as oracle functions, while every piece of control flow,
index arithmetic and data plumbing of the source is embedded directly.
-/

/-- Hyperparameter bundle, mirroring `interface ModelConfig`. -/
structure ModelConfig where
  epochs : ℕ
  batchSize : ℕ
  learningRate : ℚ
  targetVariable : Option String
  modelType : Option String
  hiddenLayers : Option (List ℕ)
  dropoutRate : Option ℚ
  optimizerName : Option String
  activationName : Option String
  deriving DecidableEq, Repr

/-- Search-run policy, mirroring `interface AutoMLConfig`. -/
structure AutoMLConfig where
  maxTrials : ℕ
  validationSplit : ℚ
  earlyStoppingPatience : ℕ
  crossValidationFolds : ℕ
  deriving DecidableEq, Repr

/-- The metrics record of a `ModelResult`. -/
structure Metrics where
  accuracy : ℚ
  loss : ℚ
  valAccuracy : ℚ
  valLoss : ℚ
  deriving DecidableEq, Repr

/-- One trial's outcome, mirroring `interface ModelResult` (the trained
model handle and the wall-clock `trainingTime` are external and carry no
verifiable content, so they are not represented). -/
structure ModelResult where
  config : ModelConfig
  metrics : Metrics
  modelType : String
  deriving DecidableEq, Repr

/-- One invocation of the `onProgress` callback of `runAutoML`, recording
the arguments `(progress, currentTrial, bestResult)` it was passed. -/
structure ProgressCall where
  percent : ℚ
  trialNum : ℕ
  best : Option ModelResult
  deriving DecidableEq, Repr

/-- A parsed dataset, mirroring `interface ProcessedData`: a numeric row
matrix plus the ordered column-name list. -/
structure ProcessedData where
  matrix : List (List ℚ)
  features : List String
  deriving DecidableEq, Repr

/-- JavaScript `a || d` on an optional string: `undefined` and the empty
string are falsy, any other string is kept. -/
def jsOrString (o : Option String) (d : String) : String :=
  match o with
  | none => d
  | some s => if s = "" then d else s

/-! ## Model catalog (`createSimpleModel` … `createModel`) -/

/-- One layer added to the `tf.sequential` model: a dense layer with its
unit count, activation tag and optional input shape, or a dropout layer. -/
inductive Layer where
  | dense (units : ℕ) (activationTag : String) (inputShape : Option ℤ)
  | dropout (rate : ℚ)
  deriving DecidableEq, Repr

/-- The layers added by `if (config.dropoutRate && config.dropoutRate > 0)
model.add(tf.layers.dropout(...))` (`0` is falsy in JavaScript, and the
explicit `> 0` guard re-checks it). -/
def dropoutLayers (config : ModelConfig) : List Layer :=
  match config.dropoutRate with
  | none => []
  | some r => if 0 < r then [Layer.dropout r] else []

/-- Embedding of `createSimpleModel`. -/
def createSimpleModel (inputFeatures : ℤ) (config : ModelConfig) : List Layer :=
  [Layer.dense 32 (jsOrString config.activationName "relu") (some inputFeatures)]
    ++ dropoutLayers config
    ++ [Layer.dense 1 "sigmoid" none]

/-- Embedding of `createDeepModel`: first hidden layer from
`hiddenLayers[0]`, then one dense (plus optional dropout) per remaining
entry, then the sigmoid output unit. -/
def createDeepModel (inputFeatures : ℤ) (config : ModelConfig) : List Layer :=
  let hiddenLayers := config.hiddenLayers.getD [128, 64, 32]
  let act := jsOrString config.activationName "relu"
  [Layer.dense (hiddenLayers.getD 0 0) act (some inputFeatures)]
    ++ dropoutLayers config
    ++ (hiddenLayers.drop 1).flatMap
        (fun u => [Layer.dense u act none] ++ dropoutLayers config)
    ++ [Layer.dense 1 "sigmoid" none]

/-- Embedding of `createWideModel`. -/
def createWideModel (inputFeatures : ℤ) (config : ModelConfig) : List Layer :=
  let act := jsOrString config.activationName "relu"
  [Layer.dense 256 act (some inputFeatures)]
    ++ dropoutLayers config
    ++ [Layer.dense 128 act none]
    ++ dropoutLayers config
    ++ [Layer.dense 1 "sigmoid" none]

/-- Embedding of `createLinearModel`: a single 1-unit sigmoid dense layer
directly on the input. -/
def createLinearModel (inputFeatures : ℤ) : List Layer :=
  [Layer.dense 1 "sigmoid" (some inputFeatures)]

/-- Embedding of `createModel`: dispatch on `config.modelType`, with any
unknown or missing tag falling back to the simple model. -/
def createModel (inputFeatures : ℤ) (config : ModelConfig) : List Layer :=
  match config.modelType with
  | some "simple" => createSimpleModel inputFeatures config
  | some "deep" => createDeepModel inputFeatures config
  | some "wide" => createWideModel inputFeatures config
  | some "linear" => createLinearModel inputFeatures
  | _ => createSimpleModel inputFeatures config

/-! ## Optimizer resolver and trainer -/

/-- A configured optimizer instance, identified by its resolved tag and
learning rate. -/
structure OptimizerSpec where
  name : String
  learningRate : ℚ
  deriving DecidableEq, Repr

/-- Embedding of `getOptimizer`: adam, sgd, rmsprop and adagrad resolve to
themselves, everything else defaults to adam. -/
def getOptimizer (optimizerName : String) (learningRate : ℚ) : OptimizerSpec :=
  match optimizerName with
  | "adam" => ⟨"adam", learningRate⟩
  | "sgd" => ⟨"sgd", learningRate⟩
  | "rmsprop" => ⟨"rmsprop", learningRate⟩
  | "adagrad" => ⟨"adagrad", learningRate⟩
  | _ => ⟨"adam", learningRate⟩

/-- The observable parameters of the `model.compile` + `model.fit` call
performed by `trainModel`. -/
structure FitCall where
  optimizerSpec : OptimizerSpec
  loss : String
  metricNames : List String
  epochs : ℕ
  batchSize : ℕ
  validationSplit : ℚ
  deriving DecidableEq, Repr

/-- Embedding of `trainModel`: it compiles with the resolved optimizer,
binary cross-entropy and accuracy, and fits for `config.epochs` epochs at
`config.batchSize` with a fixed 0.2 validation split.  Note it reads only
the `ModelConfig`, which has no early-stopping field. -/
def trainModel (config : ModelConfig) : FitCall :=
  ⟨getOptimizer (jsOrString config.optimizerName "adam") config.learningRate,
   "binaryCrossentropy", ["accuracy"], config.epochs, config.batchSize, 0.2⟩

/-! ## splitFeatureTarget -/

/-- Embedding of `splitFeatureTarget`: find the target column by exact
name (`indexOf`), throw if absent, otherwise remove that column position
from every row (`row.filter((_, i) => i !== targetIndex)`) and extract the
column values (`row[targetIndex]`). -/
def splitFeatureTarget (data : ProcessedData) (targetColumn : String) :
    Except String (List (List ℚ) × List ℚ) :=
  match data.features.indexOf? targetColumn with
  | none =>
    Except.error ("Target column \"" ++ targetColumn ++ "\" not found in dataset")
  | some targetIndex =>
    Except.ok
      (data.matrix.map (fun row => (row.enum.filter (fun p => p.1 != targetIndex)).map Prod.snd),
       data.matrix.map (fun row => row.getD targetIndex 0))

/-! ## Configuration generator (`generateModelConfigurations`) -/

/-- Search-space list `modelTypes` of the source. -/
def modelTypes : List String := ["simple", "deep", "wide", "linear"]

/-- Search-space list `learningRates` of the source. -/
def learningRates : List ℚ := [0.001, 0.01, 0.1]

/-- Search-space list `batchSizes` of the source. -/
def batchSizes : List ℕ := [16, 32, 64]

/-- Search-space list `dropoutRates` of the source. -/
def dropoutRates : List ℚ := [0, 0.1, 0.2, 0.3]

/-- Search-space list `optimizers` of the source. -/
def optimizerChoices : List String := ["adam", "sgd", "rmsprop"]

/-- Search-space list `activations` of the source. -/
def activationChoices : List String := ["relu", "tanh", "sigmoid"]

/-- Search-space list `hiddenLayerConfigs` of the source. -/
def hiddenLayerConfigs : List (List ℕ) :=
  [[32], [64, 32], [128, 64, 32], [256, 128, 64]]

/-- The object literal pushed by `generateModelConfigurations`: the base
config with the seven swept fields overridden and `epochs` capped at 20. -/
def mkTrialConfig (baseConfig : ModelConfig) (mt : String) (lr : ℚ) (bs : ℕ)
    (dr : ℚ) (opt : String) (act : String) (hl : List ℕ) : ModelConfig :=
  { baseConfig with
    modelType := some mt
    learningRate := lr
    batchSize := bs
    dropoutRate := some dr
    optimizerName := some opt
    activationName := some act
    hiddenLayers := some hl
    epochs := min baseConfig.epochs 20 }

/-- Left fold that can stop early: an `Except.error` value models the
`return` statement escaping the nested loops. -/
def foldUntil (f : σ → α → Except σ σ) : σ → List α → Except σ σ
  | s, [] => Except.ok s
  | s, a :: as =>
    match f s a with
    | Except.error s => Except.error s
    | Except.ok s => foldUntil f s as

/-- The loop body `configurations.push(...)` followed by
`if (configurations.length >= 50) return configurations`. -/
def pushConfig (configurations : List ModelConfig) (c : ModelConfig) :
    Except (List ModelConfig) (List ModelConfig) :=
  let configurations := configurations ++ [c]
  if 50 ≤ configurations.length then Except.error configurations
  else Except.ok configurations

/-- The value produced by the function, whether it left through the early
`return` inside the loops or through the final `return`. -/
def loopExit : Except (List ModelConfig) (List ModelConfig) → List ModelConfig
  | Except.error configurations => configurations
  | Except.ok configurations => configurations

/-- Embedding of `generateModelConfigurations`: seven nested loops pushing
trial configs, with `if (configurations.length >= 50) return configurations`
after each push. -/
def generateModelConfigurations (baseConfig : ModelConfig) : List ModelConfig :=
  loopExit
    (foldUntil (fun acc mt =>
      foldUntil (fun acc lr =>
        foldUntil (fun acc bs =>
          foldUntil (fun acc dr =>
            foldUntil (fun acc opt =>
              foldUntil (fun acc act =>
                foldUntil (fun acc hl =>
                  pushConfig acc (mkTrialConfig baseConfig mt lr bs dr opt act hl))
                  acc hiddenLayerConfigs)
                acc activationChoices)
              acc optimizerChoices)
            acc dropoutRates)
          acc batchSizes)
        acc learningRates)
      [] modelTypes)

/-- Modelled from the spec's words (for the refinement claim C1): the FULL
Cartesian product of the seven search-space lists, enumerated in the fixed
nesting order model type → learning rate → batch size → dropout rate →
optimizer → activation → hidden-layer shape. -/
def specCartesianOrder (baseConfig : ModelConfig) : List ModelConfig :=
  modelTypes.flatMap fun mt =>
    learningRates.flatMap fun lr =>
      batchSizes.flatMap fun bs =>
        dropoutRates.flatMap fun dr =>
          optimizerChoices.flatMap fun opt =>
            activationChoices.flatMap fun act =>
              hiddenLayerConfigs.map fun hl =>
                mkTrialConfig baseConfig mt lr bs dr opt act hl

/-- The seven-way combination tuples (model type, learning rate, batch
size, dropout rate, optimizer, activation, hidden layers) in the source's
nesting order, as a closed list. -/
def comboTuples : List (String × ℚ × ℕ × ℚ × String × String × List ℕ) :=
  modelTypes.flatMap fun mt =>
    learningRates.flatMap fun lr =>
      batchSizes.flatMap fun bs =>
        dropoutRates.flatMap fun dr =>
          optimizerChoices.flatMap fun opt =>
            activationChoices.flatMap fun act =>
              hiddenLayerConfigs.map fun hl =>
                (mt, lr, bs, dr, opt, act, hl)

/-- Instantiate one combination tuple over a base config. -/
def applyCombo (baseConfig : ModelConfig)
    (t : String × ℚ × ℕ × ℚ × String × String × List ℕ) : ModelConfig :=
  mkTrialConfig baseConfig t.1 t.2.1 t.2.2.1 t.2.2.2.1 t.2.2.2.2.1 t.2.2.2.2.2.1 t.2.2.2.2.2.2

/-! ## Generator lemmas -/

theorem foldUntil_append (f : σ → α → Except σ σ) :
    ∀ (l₁ l₂ : List α) (s : σ),
      foldUntil f s (l₁ ++ l₂) =
        match foldUntil f s l₁ with
        | Except.error e => Except.error e
        | Except.ok s => foldUntil f s l₂ := by
  intro l₁
  induction l₁ with
  | nil => intro l₂ s; rfl
  | cons a as ih =>
    intro l₂ s
    simp only [List.cons_append, foldUntil]
    cases f s a with
    | error e => rfl
    | ok s => exact ih l₂ s

theorem foldUntil_map (f : σ → β → Except σ σ) (g : α → β) :
    ∀ (l : List α) (s : σ),
      foldUntil (fun acc a => f acc (g a)) s l = foldUntil f s (l.map g) := by
  intro l
  induction l with
  | nil => intro s; rfl
  | cons a as ih =>
    intro s
    simp only [List.map_cons, foldUntil]
    cases f s (g a) with
    | error e => rfl
    | ok s => exact ih s

theorem foldUntil_flatMap (f : σ → β → Except σ σ) (g : α → List β) :
    ∀ (l : List α) (s : σ),
      foldUntil (fun acc a => foldUntil f acc (g a)) s l = foldUntil f s (l.flatMap g) := by
  intro l
  induction l with
  | nil => intro s; rfl
  | cons a as ih =>
    intro s
    simp only [List.flatMap_cons, foldUntil, foldUntil_append]
    cases foldUntil f s (g a) with
    | error e => rfl
    | ok s => exact ih s

theorem loopExit_foldUntil_pushConfig :
    ∀ (l acc : List ModelConfig), acc.length < 50 →
      loopExit (foldUntil pushConfig acc l) = acc ++ l.take (50 - acc.length) := by
  intro l
  induction l with
  | nil => intro acc h; simp [foldUntil, loopExit]
  | cons c cs ih =>
    intro acc h
    simp only [foldUntil, pushConfig]
    by_cases h50 : 50 ≤ (acc ++ [c]).length
    · rw [if_pos h50]
      simp only [loopExit]
      have hlen : 50 - acc.length = 1 := by
        simp only [List.length_append, List.length_cons, List.length_nil] at h50
        omega
      rw [hlen]
      simp
    · rw [if_neg h50]
      have hlt : (acc ++ [c]).length < 50 := by omega
      rw [ih _ hlt]
      have hstep : 50 - acc.length = (50 - (acc ++ [c]).length) + 1 := by
        simp only [List.length_append, List.length_cons, List.length_nil] at h50 ⊢
        omega
      rw [hstep]
      simp [List.append_assoc]

theorem specCartesianOrder_eq_map (baseConfig : ModelConfig) :
    specCartesianOrder baseConfig = comboTuples.map (applyCombo baseConfig) := by
  simp only [specCartesianOrder, comboTuples, List.map_flatMap, List.map_map]
  rfl

theorem generate_eq_take (baseConfig : ModelConfig) :
    generateModelConfigurations baseConfig = (specCartesianOrder baseConfig).take 50 := by
  have h7 : ∀ (mt : String) (lr : ℚ) (bs : ℕ) (dr : ℚ) (opt act : String)
      (acc : List ModelConfig),
      foldUntil (fun acc hl => pushConfig acc (mkTrialConfig baseConfig mt lr bs dr opt act hl))
          acc hiddenLayerConfigs
        = foldUntil pushConfig acc
            (hiddenLayerConfigs.map fun hl => mkTrialConfig baseConfig mt lr bs dr opt act hl) :=
    fun mt lr bs dr opt act acc => foldUntil_map pushConfig _ hiddenLayerConfigs acc
  have h6 : ∀ (mt : String) (lr : ℚ) (bs : ℕ) (dr : ℚ) (opt : String)
      (acc : List ModelConfig),
      foldUntil (fun acc act =>
          foldUntil (fun acc hl => pushConfig acc (mkTrialConfig baseConfig mt lr bs dr opt act hl))
            acc hiddenLayerConfigs) acc activationChoices
        = foldUntil pushConfig acc
            (activationChoices.flatMap fun act =>
              hiddenLayerConfigs.map fun hl => mkTrialConfig baseConfig mt lr bs dr opt act hl) := by
    intro mt lr bs dr opt acc
    have hb : (fun (acc : List ModelConfig) act =>
        foldUntil (fun acc hl => pushConfig acc (mkTrialConfig baseConfig mt lr bs dr opt act hl))
          acc hiddenLayerConfigs)
        = fun acc act => foldUntil pushConfig acc
            (hiddenLayerConfigs.map fun hl => mkTrialConfig baseConfig mt lr bs dr opt act hl) := by
      funext acc act
      exact h7 mt lr bs dr opt act acc
    rw [hb]
    exact foldUntil_flatMap pushConfig _ activationChoices acc
  have h5 : ∀ (mt : String) (lr : ℚ) (bs : ℕ) (dr : ℚ) (acc : List ModelConfig),
      foldUntil (fun acc opt =>
          foldUntil (fun acc act =>
            foldUntil (fun acc hl => pushConfig acc (mkTrialConfig baseConfig mt lr bs dr opt act hl))
              acc hiddenLayerConfigs) acc activationChoices) acc optimizerChoices
        = foldUntil pushConfig acc
            (optimizerChoices.flatMap fun opt =>
              activationChoices.flatMap fun act =>
                hiddenLayerConfigs.map fun hl => mkTrialConfig baseConfig mt lr bs dr opt act hl) := by
    intro mt lr bs dr acc
    have hb : (fun (acc : List ModelConfig) opt =>
        foldUntil (fun acc act =>
          foldUntil (fun acc hl => pushConfig acc (mkTrialConfig baseConfig mt lr bs dr opt act hl))
            acc hiddenLayerConfigs) acc activationChoices)
        = fun acc opt => foldUntil pushConfig acc
            (activationChoices.flatMap fun act =>
              hiddenLayerConfigs.map fun hl => mkTrialConfig baseConfig mt lr bs dr opt act hl) := by
      funext acc opt
      exact h6 mt lr bs dr opt acc
    rw [hb]
    exact foldUntil_flatMap pushConfig _ optimizerChoices acc
  have h4 : ∀ (mt : String) (lr : ℚ) (bs : ℕ) (acc : List ModelConfig),
      foldUntil (fun acc dr =>
          foldUntil (fun acc opt =>
            foldUntil (fun acc act =>
              foldUntil (fun acc hl => pushConfig acc (mkTrialConfig baseConfig mt lr bs dr opt act hl))
                acc hiddenLayerConfigs) acc activationChoices) acc optimizerChoices) acc dropoutRates
        = foldUntil pushConfig acc
            (dropoutRates.flatMap fun dr =>
              optimizerChoices.flatMap fun opt =>
                activationChoices.flatMap fun act =>
                  hiddenLayerConfigs.map fun hl => mkTrialConfig baseConfig mt lr bs dr opt act hl) := by
    intro mt lr bs acc
    have hb : (fun (acc : List ModelConfig) dr =>
        foldUntil (fun acc opt =>
          foldUntil (fun acc act =>
            foldUntil (fun acc hl => pushConfig acc (mkTrialConfig baseConfig mt lr bs dr opt act hl))
              acc hiddenLayerConfigs) acc activationChoices) acc optimizerChoices)
        = fun acc dr => foldUntil pushConfig acc
            (optimizerChoices.flatMap fun opt =>
              activationChoices.flatMap fun act =>
                hiddenLayerConfigs.map fun hl => mkTrialConfig baseConfig mt lr bs dr opt act hl) := by
      funext acc dr
      exact h5 mt lr bs dr acc
    rw [hb]
    exact foldUntil_flatMap pushConfig _ dropoutRates acc
  have h3 : ∀ (mt : String) (lr : ℚ) (acc : List ModelConfig),
      foldUntil (fun acc bs =>
          foldUntil (fun acc dr =>
            foldUntil (fun acc opt =>
              foldUntil (fun acc act =>
                foldUntil (fun acc hl => pushConfig acc (mkTrialConfig baseConfig mt lr bs dr opt act hl))
                  acc hiddenLayerConfigs) acc activationChoices) acc optimizerChoices) acc dropoutRates)
          acc batchSizes
        = foldUntil pushConfig acc
            (batchSizes.flatMap fun bs =>
              dropoutRates.flatMap fun dr =>
                optimizerChoices.flatMap fun opt =>
                  activationChoices.flatMap fun act =>
                    hiddenLayerConfigs.map fun hl => mkTrialConfig baseConfig mt lr bs dr opt act hl) := by
    intro mt lr acc
    have hb : (fun (acc : List ModelConfig) bs =>
        foldUntil (fun acc dr =>
          foldUntil (fun acc opt =>
            foldUntil (fun acc act =>
              foldUntil (fun acc hl => pushConfig acc (mkTrialConfig baseConfig mt lr bs dr opt act hl))
                acc hiddenLayerConfigs) acc activationChoices) acc optimizerChoices) acc dropoutRates)
        = fun acc bs => foldUntil pushConfig acc
            (dropoutRates.flatMap fun dr =>
              optimizerChoices.flatMap fun opt =>
                activationChoices.flatMap fun act =>
                  hiddenLayerConfigs.map fun hl => mkTrialConfig baseConfig mt lr bs dr opt act hl) := by
      funext acc bs
      exact h4 mt lr bs acc
    rw [hb]
    exact foldUntil_flatMap pushConfig _ batchSizes acc
  have h2 : ∀ (mt : String) (acc : List ModelConfig),
      foldUntil (fun acc lr =>
          foldUntil (fun acc bs =>
            foldUntil (fun acc dr =>
              foldUntil (fun acc opt =>
                foldUntil (fun acc act =>
                  foldUntil (fun acc hl => pushConfig acc (mkTrialConfig baseConfig mt lr bs dr opt act hl))
                    acc hiddenLayerConfigs) acc activationChoices) acc optimizerChoices) acc dropoutRates)
            acc batchSizes) acc learningRates
        = foldUntil pushConfig acc
            (learningRates.flatMap fun lr =>
              batchSizes.flatMap fun bs =>
                dropoutRates.flatMap fun dr =>
                  optimizerChoices.flatMap fun opt =>
                    activationChoices.flatMap fun act =>
                      hiddenLayerConfigs.map fun hl => mkTrialConfig baseConfig mt lr bs dr opt act hl) := by
    intro mt acc
    have hb : (fun (acc : List ModelConfig) lr =>
        foldUntil (fun acc bs =>
          foldUntil (fun acc dr =>
            foldUntil (fun acc opt =>
              foldUntil (fun acc act =>
                foldUntil (fun acc hl => pushConfig acc (mkTrialConfig baseConfig mt lr bs dr opt act hl))
                  acc hiddenLayerConfigs) acc activationChoices) acc optimizerChoices) acc dropoutRates)
          acc batchSizes)
        = fun acc lr => foldUntil pushConfig acc
            (batchSizes.flatMap fun bs =>
              dropoutRates.flatMap fun dr =>
                optimizerChoices.flatMap fun opt =>
                  activationChoices.flatMap fun act =>
                    hiddenLayerConfigs.map fun hl => mkTrialConfig baseConfig mt lr bs dr opt act hl) := by
      funext acc lr
      exact h3 mt lr acc
    rw [hb]
    exact foldUntil_flatMap pushConfig _ learningRates acc
  have h1 :
      foldUntil (fun acc mt =>
          foldUntil (fun acc lr =>
            foldUntil (fun acc bs =>
              foldUntil (fun acc dr =>
                foldUntil (fun acc opt =>
                  foldUntil (fun acc act =>
                    foldUntil (fun acc hl => pushConfig acc (mkTrialConfig baseConfig mt lr bs dr opt act hl))
                      acc hiddenLayerConfigs) acc activationChoices) acc optimizerChoices) acc dropoutRates)
              acc batchSizes) acc learningRates) [] modelTypes
        = foldUntil pushConfig [] (specCartesianOrder baseConfig) := by
    have hb : (fun (acc : List ModelConfig) mt =>
        foldUntil (fun acc lr =>
          foldUntil (fun acc bs =>
            foldUntil (fun acc dr =>
              foldUntil (fun acc opt =>
                foldUntil (fun acc act =>
                  foldUntil (fun acc hl => pushConfig acc (mkTrialConfig baseConfig mt lr bs dr opt act hl))
                    acc hiddenLayerConfigs) acc activationChoices) acc optimizerChoices) acc dropoutRates)
            acc batchSizes) acc learningRates)
        = fun acc mt => foldUntil pushConfig acc
            (learningRates.flatMap fun lr =>
              batchSizes.flatMap fun bs =>
                dropoutRates.flatMap fun dr =>
                  optimizerChoices.flatMap fun opt =>
                    activationChoices.flatMap fun act =>
                      hiddenLayerConfigs.map fun hl => mkTrialConfig baseConfig mt lr bs dr opt act hl) := by
      funext acc mt
      exact h2 mt acc
    rw [hb]
    exact foldUntil_flatMap pushConfig _ modelTypes []
  rw [generateModelConfigurations, h1,
    loopExit_foldUntil_pushConfig _ [] (by decide)]
  simp only [List.nil_append, List.length_nil, Nat.sub_zero]

attribute [irreducible] generateModelConfigurations

theorem mem_generate_eq_applyCombo {baseConfig : ModelConfig} {c : ModelConfig}
    (hc : c ∈ generateModelConfigurations baseConfig) :
    ∃ t ∈ comboTuples.take 50, c = applyCombo baseConfig t := by
  rw [generate_eq_take, specCartesianOrder_eq_map, ← List.map_take] at hc
  obtain ⟨t, ht, rfl⟩ := List.mem_map.mp hc
  exact ⟨t, ht, rfl⟩

/-- A fixed base configuration used to instantiate witnesses. -/
def base0 : ModelConfig := ⟨10, 32, 1, none, none, none, none, none, none⟩

/-- C1: for every base configuration, `generateModelConfigurations` returns
at most 50 configurations, which are exactly the first (up to) 50 tuples of
the Cartesian product in the fixed nesting order model type → learning rate
→ batch size → dropout rate → optimizer → activation → hidden-layer shape,
each copying the base config's other fields with `epochs` set to
`min(baseConfig.epochs, 20)`; as a pure function of the base config the
sequence is deterministic across calls. -/
theorem generate_spec (baseConfig : ModelConfig) :
    generateModelConfigurations baseConfig = (specCartesianOrder baseConfig).take 50 ∧
    (generateModelConfigurations baseConfig).length ≤ 50 ∧
    ∀ c ∈ generateModelConfigurations baseConfig,
      c.epochs = min baseConfig.epochs 20 ∧ c.targetVariable = baseConfig.targetVariable := by
  refine ⟨generate_eq_take baseConfig, ?_, ?_⟩
  · rw [generate_eq_take]
    exact List.length_take_le 50 _
  · intro c hc
    obtain ⟨t, _, rfl⟩ := mem_generate_eq_applyCombo hc
    exact ⟨rfl, rfl⟩

/-- Witness for C1 at a concrete base config and the first generated
configuration. -/
theorem generate_spec_witness :
    (generateModelConfigurations base0).length ≤ 50 ∧
    (mkTrialConfig base0 "simple" 0.001 16 0 "adam" "relu" [32]).epochs = min base0.epochs 20 :=
  ⟨(generate_spec base0).2.1,
   ((generate_spec base0).2.2 _ (by
      rw [generate_eq_take base0, specCartesianOrder_eq_map, ← List.map_take]
      exact List.mem_map_of_mem (applyCombo base0)
        (show ("simple", (0.001 : ℚ), (16 : ℕ), (0 : ℚ), "adam", "relu", ([32] : List ℕ))
            ∈ comboTuples.take 50 by with_unfolding_all decide))).1⟩

/-- C2: the 50-configuration cap is reached inside the very first
(model type, learning rate, batch size) cell, so every base configuration
yields exactly 50 configurations, all with model type "simple", learning
rate 0.001 and batch size 16. -/
theorem generate_always_50_simple (baseConfig : ModelConfig) :
    (generateModelConfigurations baseConfig).length = 50 ∧
    ∀ c ∈ generateModelConfigurations baseConfig,
      c.modelType = some "simple" ∧ c.learningRate = 0.001 ∧ c.batchSize = 16 := by
  constructor
  · rw [generate_eq_take, specCartesianOrder_eq_map, ← List.map_take, List.length_map]
    with_unfolding_all decide
  · intro c hc
    obtain ⟨t, ht, rfl⟩ := mem_generate_eq_applyCombo hc
    have h50 : ∀ t ∈ comboTuples.take 50,
        t.1 = "simple" ∧ t.2.1 = 0.001 ∧ t.2.2.1 = 16 := by
      with_unfolding_all decide
    obtain ⟨h1, h2, h3⟩ := h50 t ht
    refine ⟨?_, ?_, ?_⟩
    · show some t.1 = some "simple"
      rw [h1]
    · exact h2
    · exact h3

/-- Witness for C2 at a concrete base config and a concrete generated
configuration. -/
theorem generate_always_50_simple_witness :
    (generateModelConfigurations base0).length = 50 ∧
    (mkTrialConfig base0 "simple" 0.001 16 0 "adam" "relu" [32]).modelType = some "simple" :=
  ⟨(generate_always_50_simple base0).1,
   ((generate_always_50_simple base0).2 _ (by
      rw [generate_eq_take base0, specCartesianOrder_eq_map, ← List.map_take]
      exact List.mem_map_of_mem (applyCombo base0)
        (show ("simple", (0.001 : ℚ), (16 : ℕ), (0 : ℚ), "adam", "relu", ([32] : List ℕ))
            ∈ comboTuples.take 50 by with_unfolding_all decide))).1⟩

/-! ## Cross-validator (`crossValidate`) -/

/-- The pair of scalars produced by `model.evaluate` on a validation fold:
`evaluation[0]` is the loss, `evaluation[1]` the accuracy. -/
structure EvalResult where
  loss : ℚ
  accuracy : ℚ
  deriving DecidableEq, Repr

/-- The averaged result returned by `crossValidate`. -/
structure CVResult where
  accuracy : ℚ
  loss : ℚ
  deriving DecidableEq, Repr

/-- The `startIdx` of fold `fold`: `fold * foldSize` with
`foldSize = Math.floor(dataSize / folds)`. -/
def foldStart (N folds fold : ℕ) : ℕ := fold * (N / folds)

/-- The `endIdx` of fold `fold`: `dataSize` for the last fold, else
`(fold + 1) * foldSize`. -/
def foldEnd (N folds fold : ℕ) : ℕ :=
  if fold = folds - 1 then N else (fold + 1) * (N / folds)

/-- The row indices of the validation slice
`features.slice([startIdx, 0], [endIdx - startIdx, -1])`. -/
def valIndices (N folds fold : ℕ) : List ℕ :=
  ((List.range N).drop (foldStart N folds fold)).take
    (foldEnd N folds fold - foldStart N folds fold)

/-- The training indices: every `i` in `[0, dataSize)` with
`i < startIdx || i >= endIdx`, in original order. -/
def trainIndices (N folds fold : ℕ) : List ℕ :=
  (List.range N).filter
    (fun i => decide (i < foldStart N folds fold) || decide (foldEnd N folds fold ≤ i))

/-- Training a fresh model on the gathered training rows and evaluating it
on the validation slice of fold `fold`; the numeric outcome is supplied by
the abstract oracle `evalFold`, since TensorFlow.js training is external. -/
def foldEval (N folds : ℕ) (evalFold : List ℕ → List ℕ → EvalResult) (fold : ℕ) : EvalResult :=
  evalFold (trainIndices N folds fold) (valIndices N folds fold)

/-- Embedding of `crossValidate`: loop `fold` over `[0, folds)`, accumulate
`totalAccuracy`/`totalLoss`, and return both divided by `folds`. -/
def crossValidate (N : ℕ) (evalFold : List ℕ → List ℕ → EvalResult) (folds : ℕ) : CVResult :=
  let totals := (List.range folds).foldl
    (fun (acc : ℚ × ℚ) fold =>
      (acc.1 + (foldEval N folds evalFold fold).accuracy,
       acc.2 + (foldEval N folds evalFold fold).loss))
    (0, 0)
  ⟨totals.1 / (folds : ℚ), totals.2 / (folds : ℚ)⟩

/-! ## Cross-validator lemmas -/

theorem drop_take_range (N s t : ℕ) (h : s + t ≤ N) :
    ((List.range N).drop s).take t = List.range' s t := by
  have h1 : List.range' 0 s ++ List.range' s (N - s) = List.range' 0 N := by
    have h2 := List.range'_append_1 0 s (N - s)
    rw [Nat.zero_add] at h2
    rw [h2]
    congr 1
    omega
  have h3 : (List.range N).drop s = List.range' s (N - s) := by
    rw [List.range_eq_range', ← h1, List.drop_left' (by simp)]
  rw [h3]
  have h4 : List.range' s t ++ List.range' (s + t) (N - s - t) = List.range' s (N - s) := by
    rw [List.range'_append_1 s t (N - s - t)]
    congr 1
    omega
  rw [← h4, List.take_left' (by simp)]

theorem mul_div_le_of_le (N k f : ℕ) (hf : f ≤ k) : f * (N / k) ≤ N :=
  calc f * (N / k) ≤ k * (N / k) := Nat.mul_le_mul hf (Nat.le_refl _)
    _ = N / k * k := Nat.mul_comm _ _
    _ ≤ N := Nat.div_mul_le_self N k

theorem foldStart_le_foldEnd (N k f : ℕ) (hf : f < k) :
    foldStart N k f ≤ foldEnd N k f := by
  unfold foldStart foldEnd
  by_cases hlast : f = k - 1
  · rw [if_pos hlast]
    exact mul_div_le_of_le N k f (by omega)
  · rw [if_neg hlast]
    exact Nat.mul_le_mul (by omega) (Nat.le_refl _)

theorem foldEnd_le (N k f : ℕ) (hf : f < k) : foldEnd N k f ≤ N := by
  unfold foldEnd
  by_cases hlast : f = k - 1
  · rw [if_pos hlast]
  · rw [if_neg hlast]
    exact mul_div_le_of_le N k (f + 1) (by omega)

theorem valIndices_eq_range' (N k f : ℕ) (hf : f < k) :
    valIndices N k f = List.range' (foldStart N k f) (foldEnd N k f - foldStart N k f) := by
  have h1 := foldStart_le_foldEnd N k f hf
  have h2 := foldEnd_le N k f hf
  unfold valIndices
  exact drop_take_range N _ _ (by omega)

theorem mem_valIndices (N k f i : ℕ) (hf : f < k) :
    i ∈ valIndices N k f ↔ foldStart N k f ≤ i ∧ i < foldEnd N k f := by
  have h1 := foldStart_le_foldEnd N k f hf
  rw [valIndices_eq_range' N k f hf, List.mem_range'_1]
  omega

theorem valIndices_length_mid (N k f : ℕ) (hf : f < k - 1) :
    (valIndices N k f).length = N / k := by
  have he : foldEnd N k f = (f + 1) * (N / k) := by
    unfold foldEnd
    rw [if_neg (by omega)]
  rw [valIndices_eq_range' N k f (by omega), List.length_range', he]
  unfold foldStart
  have hx : (f + 1) * (N / k) = f * (N / k) + N / k := by ring
  rw [hx, Nat.add_sub_cancel_left]

theorem valIndices_length_last (N k : ℕ) (hk : 0 < k) (hkN : k ≤ N) :
    (valIndices N k (k - 1)).length = N / k + N % k := by
  have he : foldEnd N k (k - 1) = N := by
    unfold foldEnd
    rw [if_pos rfl]
  rw [valIndices_eq_range' N k (k - 1) (by omega), List.length_range', he]
  show N - (k - 1) * (N / k) = N / k + N % k
  have hdm := Nat.div_add_mod N k
  have hk1 : k - 1 + 1 = k := by omega
  have hmul : (k - 1) * (N / k) + N / k = k * (N / k) := by
    calc (k - 1) * (N / k) + N / k = (k - 1 + 1) * (N / k) := by ring
      _ = k * (N / k) := by rw [hk1]
  have key : N = (k - 1) * (N / k) + (N / k + N % k) := by
    rw [← Nat.add_assoc, hmul]
    exact hdm.symm
  nth_rewrite 1 [key]
  rw [Nat.add_sub_cancel_left]

theorem foldBlocks_disjoint (N k f1 f2 i : ℕ) (h12 : f1 < f2) (hf2 : f2 < k)
    (hm1 : foldStart N k f1 ≤ i ∧ i < foldEnd N k f1)
    (hm2 : foldStart N k f2 ≤ i ∧ i < foldEnd N k f2) : False := by
  have hend1 : foldEnd N k f1 = (f1 + 1) * (N / k) := by
    unfold foldEnd
    rw [if_neg (by omega)]
  have hstart2 : foldStart N k f2 = f2 * (N / k) := rfl
  have hle : (f1 + 1) * (N / k) ≤ f2 * (N / k) := Nat.mul_le_mul (by omega) (Nat.le_refl _)
  rw [hend1] at hm1
  rw [hstart2] at hm2
  omega

theorem valIndices_partition (N k i : ℕ) (hk2 : 2 ≤ k) (hkN : k ≤ N) (hi : i < N) :
    ∃! f, f < k ∧ i ∈ valIndices N k f := by
  have hk : 0 < k := by omega
  have hq : 0 < N / k := Nat.div_pos hkN hk
  have hck : min (i / (N / k)) (k - 1) < k := by
    have := Nat.min_le_right (i / (N / k)) (k - 1)
    omega
  have hcmem : foldStart N k (min (i / (N / k)) (k - 1)) ≤ i ∧
      i < foldEnd N k (min (i / (N / k)) (k - 1)) := by
    by_cases hcase : i / (N / k) < k - 1
    · have hmin : min (i / (N / k)) (k - 1) = i / (N / k) := by omega
      rw [hmin]
      constructor
      · show i / (N / k) * (N / k) ≤ i
        exact Nat.div_mul_le_self i (N / k)
      · have hne : foldEnd N k (i / (N / k)) = (i / (N / k) + 1) * (N / k) := by
          unfold foldEnd
          rw [if_neg (by omega)]
        rw [hne]
        have hdm := Nat.div_add_mod i (N / k)
        have hmod := Nat.mod_lt i hq
        have hx : (i / (N / k) + 1) * (N / k) = (N / k) * (i / (N / k)) + N / k := by ring
        omega
    · have hmin : min (i / (N / k)) (k - 1) = k - 1 := by omega
      rw [hmin]
      constructor
      · show (k - 1) * (N / k) ≤ i
        calc (k - 1) * (N / k) ≤ i / (N / k) * (N / k) := Nat.mul_le_mul (by omega) (Nat.le_refl _)
          _ ≤ i := Nat.div_mul_le_self i (N / k)
      · show i < foldEnd N k (k - 1)
        unfold foldEnd
        rw [if_pos rfl]
        exact hi
  refine ⟨min (i / (N / k)) (k - 1), ⟨hck, (mem_valIndices N k _ i hck).mpr hcmem⟩, ?_⟩
  intro f' hf'
  obtain ⟨hf'k, hmem'⟩ := hf'
  rw [mem_valIndices N k f' i hf'k] at hmem'
  rcases lt_trichotomy f' (min (i / (N / k)) (k - 1)) with h | h | h
  · exact (foldBlocks_disjoint N k f' _ i h hck hmem' hcmem).elim
  · exact h
  · exact (foldBlocks_disjoint N k _ f' i h hf'k hcmem hmem').elim

theorem trainIndices_eq_complement (N k f : ℕ) (hf : f < k) :
    trainIndices N k f = (List.range N).filter (fun i => decide (i ∉ valIndices N k f)) := by
  apply List.filter_congr
  intro i hi
  have hm := mem_valIndices N k f i hf
  by_cases hmem : i ∈ valIndices N k f
  · have hb : decide (i ∉ valIndices N k f) = false := by simp [hmem]
    rw [hb]
    have hin := hm.mp hmem
    simp only [Bool.or_eq_false_iff, decide_eq_false_iff_not]
    omega
  · have hb : decide (i ∉ valIndices N k f) = true := by simp [hmem]
    rw [hb]
    have hout : ¬(foldStart N k f ≤ i ∧ i < foldEnd N k f) := fun hc => hmem (hm.mpr hc)
    simp only [Bool.or_eq_true, decide_eq_true_eq]
    omega

theorem foldl_accumulate (g : ℕ → EvalResult) :
    ∀ (l : List ℕ) (init : ℚ × ℚ),
      l.foldl (fun acc f => (acc.1 + (g f).accuracy, acc.2 + (g f).loss)) init
        = (init.1 + (l.map fun f => (g f).accuracy).sum,
           init.2 + (l.map fun f => (g f).loss).sum) := by
  intro l
  induction l with
  | nil => intro init; simp
  | cons x xs ih =>
    intro init
    simp only [List.foldl_cons, List.map_cons, List.sum_cons, ih]
    simp [add_assoc]

/-- C3: for `2 ≤ k ≤ N`, `crossValidate` splits `[0, N)` into `k`
contiguous blocks of size `⌊N/k⌋` with the final block absorbing the
remainder, uses every sample index in exactly one validation fold, takes
the complement in original order as the training set, and returns accuracy
and loss equal to the sum of the `k` fold evaluations divided by `k`. -/
theorem crossValidate_spec (N : ℕ) (evalFold : List ℕ → List ℕ → EvalResult) (k : ℕ)
    (hk2 : 2 ≤ k) (hkN : k ≤ N) :
    (∀ f, f < k →
      valIndices N k f = List.range' (foldStart N k f) (foldEnd N k f - foldStart N k f)) ∧
    (∀ f, f < k - 1 → (valIndices N k f).length = N / k) ∧
    (valIndices N k (k - 1)).length = N / k + N % k ∧
    (∀ i, i < N → ∃! f, f < k ∧ i ∈ valIndices N k f) ∧
    (∀ f, f < k →
      trainIndices N k f = (List.range N).filter (fun i => decide (i ∉ valIndices N k f))) ∧
    crossValidate N evalFold k =
      ⟨((List.range k).map fun f => (foldEval N k evalFold f).accuracy).sum / (k : ℚ),
       ((List.range k).map fun f => (foldEval N k evalFold f).loss).sum / (k : ℚ)⟩ := by
  refine ⟨fun f hf => valIndices_eq_range' N k f hf,
    fun f hf => valIndices_length_mid N k f hf,
    valIndices_length_last N k (by omega) hkN,
    fun i hi => valIndices_partition N k i hk2 hkN hi,
    fun f hf => trainIndices_eq_complement N k f hf,
    ?_⟩
  rw [crossValidate, foldl_accumulate (foldEval N k evalFold) (List.range k) (0, 0)]
  simp

/-- A constant evaluation oracle used to instantiate the C3 witness. -/
def evalFold0 : List ℕ → List ℕ → EvalResult := fun _ _ => ⟨1, 1⟩

/-- Witness for C3 at `N = 5`, `k = 2`. -/
theorem crossValidate_spec_witness :
    (2 ≤ 2 ∧ 2 ≤ 5) ∧ (valIndices 5 2 (2 - 1)).length = 5 / 2 + 5 % 2 :=
  ⟨⟨by decide, by decide⟩,
   (crossValidate_spec 5 evalFold0 2 (by decide) (by decide)).2.2.1⟩

/-! ## AutoML orchestrator (`runAutoML`) -/

/-- Placeholder used for the never-taken default of the in-range index
access `configurations[i]`. -/
def defaultModelConfig : ModelConfig := ⟨0, 0, 0, none, none, none, none, none, none⟩

/-- The `ModelResult` object assembled for a completed trial:
`modelType: config.modelType || 'simple'`, metrics from the trial. -/
def mkResult (config : ModelConfig) (m : Metrics) : ModelResult :=
  ⟨config, m, jsOrString config.modelType "simple"⟩

/-- The clamp `trialsToRun = Math.min(configurations.length, maxTrials)`. -/
def trialsToRun (baseConfig : ModelConfig) (autoMLConfig : AutoMLConfig) : ℕ :=
  min (generateModelConfigurations baseConfig).length autoMLConfig.maxTrials

/-- The configuration `configurations[i]` of trial `i`. -/
def trialConfig (baseConfig : ModelConfig) (i : ℕ) : ModelConfig :=
  (generateModelConfigurations baseConfig).getD i defaultModelConfig

/-- The mutable state of the trial loop: the `results` array, the running
`bestResult`, and the recorded `onProgress` invocations. -/
structure AutoMLState where
  results : List ModelResult
  bestResult : Option ModelResult
  calls : List ProgressCall
  deriving DecidableEq, Repr

/-- One iteration of the trial loop of `runAutoML`.  The outcome of the
trial's cross-validation + full-data training is supplied by the abstract
oracle `trialEval i config folds`, with `none` modelling a thrown exception
(the `catch` logs and continues, producing no result and no progress
call).  On success the result is pushed, the best result updated, and
`onProgress((i+1)/trialsToRun*100, i+1, bestResult)` recorded. -/
def autoMLStep (baseConfig : ModelConfig) (autoMLConfig : AutoMLConfig)
    (trialEval : ℕ → ModelConfig → ℕ → Option Metrics)
    (st : AutoMLState) (i : ℕ) : AutoMLState :=
  match trialEval i (trialConfig baseConfig i) autoMLConfig.crossValidationFolds with
  | none => st
  | some m =>
    let result := mkResult (trialConfig baseConfig i) m
    let best :=
      match st.bestResult with
      | none => some result
      | some b => if b.metrics.accuracy < m.accuracy then some result else some b
    ⟨st.results ++ [result], best,
     st.calls ++ [⟨((i : ℚ) + 1) / ((trialsToRun baseConfig autoMLConfig : ℕ) : ℚ) * 100,
       i + 1, best⟩]⟩

/-- The loop state after all `trialsToRun` iterations. -/
def finalState (baseConfig : ModelConfig) (autoMLConfig : AutoMLConfig)
    (trialEval : ℕ → ModelConfig → ℕ → Option Metrics) : AutoMLState :=
  (List.range (trialsToRun baseConfig autoMLConfig)).foldl
    (autoMLStep baseConfig autoMLConfig trialEval) ⟨[], none, []⟩

/-- The comparator `(a, b) => b.metrics.accuracy - a.metrics.accuracy`
(descending by accuracy) as a boolean relation. -/
def resultLe (x y : ModelResult) : Bool :=
  decide (y.metrics.accuracy ≤ x.metrics.accuracy)

/-- The leaderboard returned by `runAutoML`: the collected results sorted
descending by accuracy. -/
def runAutoMLResults (baseConfig : ModelConfig) (autoMLConfig : AutoMLConfig)
    (trialEval : ℕ → ModelConfig → ℕ → Option Metrics) : List ModelResult :=
  (finalState baseConfig autoMLConfig trialEval).results.mergeSort resultLe

/-- The sequence of `onProgress` invocations produced by one `runAutoML`
call. -/
def runAutoMLCalls (baseConfig : ModelConfig) (autoMLConfig : AutoMLConfig)
    (trialEval : ℕ → ModelConfig → ℕ → Option Metrics) : List ProgressCall :=
  (finalState baseConfig autoMLConfig trialEval).calls

/-- Embedding of `runAutoML`: returns the results sorted descending by
accuracy, paired with the sequence of `onProgress` invocations. -/
def runAutoML (baseConfig : ModelConfig) (autoMLConfig : AutoMLConfig)
    (trialEval : ℕ → ModelConfig → ℕ → Option Metrics) :
    List ModelResult × List ProgressCall :=
  (runAutoMLResults baseConfig autoMLConfig trialEval,
   runAutoMLCalls baseConfig autoMLConfig trialEval)

/-! ## Orchestrator lemmas -/

theorem foldl_autoMLStep_results (baseConfig : ModelConfig) (autoMLConfig : AutoMLConfig)
    (trialEval : ℕ → ModelConfig → ℕ → Option Metrics) :
    ∀ (l : List ℕ) (st : AutoMLState),
      (l.foldl (autoMLStep baseConfig autoMLConfig trialEval) st).results
        = st.results ++ l.filterMap (fun i =>
            (trialEval i (trialConfig baseConfig i) autoMLConfig.crossValidationFolds).map
              (mkResult (trialConfig baseConfig i))) := by
  intro l
  induction l with
  | nil => intro st; simp
  | cons i l ih =>
    intro st
    simp only [List.foldl_cons, List.filterMap_cons]
    cases h : trialEval i (trialConfig baseConfig i) autoMLConfig.crossValidationFolds with
    | none =>
      rw [show autoMLStep baseConfig autoMLConfig trialEval st i = st by
        unfold autoMLStep; rw [h]]
      simp [ih]
    | some m =>
      rw [ih]
      rw [show (autoMLStep baseConfig autoMLConfig trialEval st i).results
          = st.results ++ [mkResult (trialConfig baseConfig i) m] by
        unfold autoMLStep; rw [h]]
      simp

theorem foldl_autoMLStep_percents (baseConfig : ModelConfig) (autoMLConfig : AutoMLConfig)
    (trialEval : ℕ → ModelConfig → ℕ → Option Metrics) :
    ∀ (l : List ℕ) (st : AutoMLState),
      ((l.foldl (autoMLStep baseConfig autoMLConfig trialEval) st).calls).map ProgressCall.percent
        = st.calls.map ProgressCall.percent ++
          (l.filter (fun i =>
            (trialEval i (trialConfig baseConfig i) autoMLConfig.crossValidationFolds).isSome)).map
            (fun (i : ℕ) => ((i : ℚ) + 1) / ((trialsToRun baseConfig autoMLConfig : ℕ) : ℚ) * 100) := by
  intro l
  induction l with
  | nil => intro st; simp
  | cons i l ih =>
    intro st
    simp only [List.foldl_cons, List.filter_cons]
    cases h : trialEval i (trialConfig baseConfig i) autoMLConfig.crossValidationFolds with
    | none =>
      rw [show autoMLStep baseConfig autoMLConfig trialEval st i = st by
        unfold autoMLStep; rw [h]]
      simp [ih]
    | some m =>
      rw [ih]
      have hc : (autoMLStep baseConfig autoMLConfig trialEval st i).calls
          = st.calls ++ [⟨((i : ℚ) + 1) / ((trialsToRun baseConfig autoMLConfig : ℕ) : ℚ) * 100,
              i + 1,
              match st.bestResult with
              | none => some (mkResult (trialConfig baseConfig i) m)
              | some b => if b.metrics.accuracy < m.accuracy
                  then some (mkResult (trialConfig baseConfig i) m) else some b⟩] := by
        unfold autoMLStep; rw [h]
      rw [hc]
      simp

theorem foldl_autoMLStep_allFail (baseConfig : ModelConfig) (autoMLConfig : AutoMLConfig)
    (trialEval : ℕ → ModelConfig → ℕ → Option Metrics)
    (h : ∀ i c k, trialEval i c k = none) :
    ∀ (l : List ℕ) (st : AutoMLState),
      l.foldl (autoMLStep baseConfig autoMLConfig trialEval) st = st := by
  intro l
  induction l with
  | nil => intro st; rfl
  | cons i l ih =>
    intro st
    simp only [List.foldl_cons]
    rw [show autoMLStep baseConfig autoMLConfig trialEval st i = st by
      unfold autoMLStep; rw [h]]
    exact ih st


/-- C4 (amended): the progress callback fires at most `maxTrials` times
with non-decreasing percent, and the final call reports 100 % whenever the
last scheduled trial (index `trialsToRun - 1`) does not throw. -/
theorem runAutoML_progress_spec (baseConfig : ModelConfig) (autoMLConfig : AutoMLConfig)
    (trialEval : ℕ → ModelConfig → ℕ → Option Metrics) :
    (runAutoMLCalls baseConfig autoMLConfig trialEval).length ≤ autoMLConfig.maxTrials ∧
    List.Pairwise (fun p q : ProgressCall => p.percent ≤ q.percent)
      (runAutoMLCalls baseConfig autoMLConfig trialEval) ∧
    (1 ≤ trialsToRun baseConfig autoMLConfig →
      (trialEval (trialsToRun baseConfig autoMLConfig - 1)
          (trialConfig baseConfig (trialsToRun baseConfig autoMLConfig - 1))
          autoMLConfig.crossValidationFolds).isSome = true →
      ((runAutoMLCalls baseConfig autoMLConfig trialEval).map ProgressCall.percent).getLast?
        = some 100) := by
  have hmap : (runAutoMLCalls baseConfig autoMLConfig trialEval).map ProgressCall.percent
      = ((List.range (trialsToRun baseConfig autoMLConfig)).filter
          (fun i => (trialEval i (trialConfig baseConfig i)
            autoMLConfig.crossValidationFolds).isSome)).map
          (fun (i : ℕ) => ((i : ℚ) + 1) / ((trialsToRun baseConfig autoMLConfig : ℕ) : ℚ) * 100) := by
    unfold runAutoMLCalls finalState
    rw [foldl_autoMLStep_percents]
    simp
  have h1 := congrArg List.length hmap
  simp only [List.length_map] at h1
  refine ⟨?_, ?_, ?_⟩
  · refine Eq.trans_le h1 ?_
    refine le_trans (List.length_filter_le _ _) ?_
    rw [List.length_range]
    exact Nat.min_le_right _ _
  · have hp : List.Pairwise (fun a b : ℚ => a ≤ b)
        ((runAutoMLCalls baseConfig autoMLConfig trialEval).map ProgressCall.percent) := by
      rw [hmap]
      rcases Nat.eq_zero_or_pos (trialsToRun baseConfig autoMLConfig) with hT | hT
      · rw [hT]
        simp
      · refine List.Pairwise.map _ ?_ ((List.pairwise_lt_range _).filter _)
        intro i j hij
        have hT' : (0 : ℚ) < ((trialsToRun baseConfig autoMLConfig : ℕ) : ℚ) := by
          exact_mod_cast hT
        have h1 : ((i : ℚ) + 1) ≤ ((j : ℚ) + 1) := by
          have hij' : (i : ℚ) ≤ (j : ℚ) := by exact_mod_cast le_of_lt hij
          linarith
        have h2 := (div_le_div_iff_of_pos_right hT').mpr h1
        exact mul_le_mul_of_nonneg_right h2 (by norm_num)
    exact List.pairwise_map.mp hp
  · intro hT1 hsucc
    rw [hmap]
    obtain ⟨u, hu⟩ : ∃ u, trialsToRun baseConfig autoMLConfig = u + 1 :=
      ⟨trialsToRun baseConfig autoMLConfig - 1, by omega⟩
    rw [hu] at hsucc ⊢
    simp only [Nat.add_sub_cancel] at hsucc
    rw [List.range_succ, List.filter_append, List.map_append]
    have hfil : List.filter
        (fun i => (trialEval i (trialConfig baseConfig i)
          autoMLConfig.crossValidationFolds).isSome) [u] = [u] := by
      simp [hsucc]
    rw [hfil]
    simp only [List.map_singleton, List.getLast?_concat, Option.some.injEq]
    have hne : ((u : ℚ) + 1) ≠ 0 := by positivity
    push_cast
    rw [div_self hne, one_mul]

/-- A concrete search policy with two trials, used for counterexamples and
witnesses. -/
def cexAuto : AutoMLConfig := ⟨2, 0.2, 0, 3⟩

/-- An oracle whose first trial succeeds and whose second trial throws. -/
def cexEval : ℕ → ModelConfig → ℕ → Option Metrics :=
  fun i _ _ => if i = 0 then some ⟨0.5, 0.5, 0.5, 0.5⟩ else none

/-- C4 counterexample: two trials are scheduled and attempted, the first
succeeds and the second throws; the progress callback's final (and only)
call reports 50 %, not 100 %, refuting the claim that the final call's
percent equals 100 whenever at least one trial is attempted. -/
theorem runAutoML_progress_cex :
    1 ≤ trialsToRun base0 cexAuto ∧
    (runAutoMLCalls base0 cexAuto cexEval).map ProgressCall.percent = [50] := by
  constructor
  · with_unfolding_all decide
  · with_unfolding_all decide

/-- An oracle for which every trial succeeds. -/
def evalAll : ℕ → ModelConfig → ℕ → Option Metrics := fun _ _ _ => some ⟨0.5, 0.5, 0.5, 0.5⟩

/-- Witness for C4 (amended) at a concrete run whose last trial succeeds. -/
theorem runAutoML_progress_spec_witness :
    (1 ≤ trialsToRun base0 cexAuto ∧
      (evalAll (trialsToRun base0 cexAuto - 1)
        (trialConfig base0 (trialsToRun base0 cexAuto - 1))
        cexAuto.crossValidationFolds).isSome = true) ∧
    ((runAutoMLCalls base0 cexAuto evalAll).map ProgressCall.percent).getLast? = some 100 :=
  ⟨⟨by with_unfolding_all decide, rfl⟩,
   (runAutoML_progress_spec base0 cexAuto evalAll).2.2 (by with_unfolding_all decide) rfl⟩

/-- C5: the leaderboard returned by `runAutoML` is sorted descending by
accuracy: every adjacent pair satisfies `r[i+1].accuracy ≤ r[i].accuracy`. -/
theorem runAutoML_sorted (baseConfig : ModelConfig) (autoMLConfig : AutoMLConfig)
    (trialEval : ℕ → ModelConfig → ℕ → Option Metrics) (i : ℕ)
    (h : i + 1 < (runAutoMLResults baseConfig autoMLConfig trialEval).length) :
    ((runAutoMLResults baseConfig autoMLConfig trialEval).get ⟨i + 1, h⟩).metrics.accuracy
      ≤ ((runAutoMLResults baseConfig autoMLConfig trialEval).get
          ⟨i, Nat.lt_of_succ_lt h⟩).metrics.accuracy := by
  have hs : ((finalState baseConfig autoMLConfig trialEval).results.mergeSort resultLe).Pairwise
      (fun a b => resultLe a b = true) := by
    apply List.sorted_mergeSort
    · intro a b c hab hbc
      simp only [resultLe, decide_eq_true_eq] at *
      exact le_trans hbc hab
    · intro a b
      simp only [resultLe]
      rcases le_total b.metrics.accuracy a.metrics.accuracy with hab | hab
      · simp [hab]
      · simp [hab]
  have hget := List.pairwise_iff_getElem.mp hs i (i + 1)
    (Nat.lt_of_succ_lt h) h (Nat.lt_succ_self i)
  simp only [resultLe, decide_eq_true_eq] at hget
  simpa [List.get_eq_getElem] using hget

/-- An oracle giving trial `i` accuracy `i / 10`, so the raw results are in
ascending accuracy order and sorting must reverse them. -/
def cexEval2 : ℕ → ModelConfig → ℕ → Option Metrics :=
  fun i _ _ => some ⟨(i : ℚ) / 10, 0, 0, 0⟩

/-- Witness for C5 at a concrete two-trial run. -/
theorem runAutoML_sorted_witness :
    ((runAutoMLResults base0 cexAuto cexEval2).get
        ⟨1, by with_unfolding_all decide⟩).metrics.accuracy
      ≤ ((runAutoMLResults base0 cexAuto cexEval2).get
        ⟨0, by with_unfolding_all decide⟩).metrics.accuracy :=
  runAutoML_sorted base0 cexAuto cexEval2 0 (by with_unfolding_all decide)

/-- C6: a throwing trial contributes no result and the loop continues (the
leaderboard is exactly the sorted results of the non-throwing trials); in
particular if every trial throws, `runAutoML` returns an empty leaderboard
with no progress calls, and `bestResult` stays undefined in any call. -/
theorem runAutoML_error_tolerant (baseConfig : ModelConfig) (autoMLConfig : AutoMLConfig)
    (trialEval : ℕ → ModelConfig → ℕ → Option Metrics) :
    runAutoMLResults baseConfig autoMLConfig trialEval
      = ((List.range (trialsToRun baseConfig autoMLConfig)).filterMap (fun i =>
          (trialEval i (trialConfig baseConfig i) autoMLConfig.crossValidationFolds).map
            (mkResult (trialConfig baseConfig i)))).mergeSort resultLe ∧
    ((∀ i c k, trialEval i c k = none) →
      runAutoMLResults baseConfig autoMLConfig trialEval = [] ∧
      runAutoMLCalls baseConfig autoMLConfig trialEval = [] ∧
      ∀ p ∈ runAutoMLCalls baseConfig autoMLConfig trialEval, p.best = none) := by
  constructor
  · unfold runAutoMLResults finalState
    rw [foldl_autoMLStep_results]
    simp
  · intro h
    have hfs : finalState baseConfig autoMLConfig trialEval = ⟨[], none, []⟩ := by
      unfold finalState
      exact foldl_autoMLStep_allFail baseConfig autoMLConfig trialEval h _ _
    have hcalls : runAutoMLCalls baseConfig autoMLConfig trialEval = [] := by
      unfold runAutoMLCalls
      rw [hfs]
    refine ⟨?_, hcalls, ?_⟩
    · unfold runAutoMLResults
      rw [hfs]
      simp
    · intro p hp
      rw [hcalls] at hp
      exact absurd hp (List.not_mem_nil p)

/-- An oracle for which every trial throws. -/
def evalNone : ℕ → ModelConfig → ℕ → Option Metrics := fun _ _ _ => none

/-- Witness for C6 at a concrete run in which every trial throws. -/
theorem runAutoML_error_tolerant_witness :
    runAutoMLResults base0 cexAuto evalNone = [] ∧ runAutoMLCalls base0 cexAuto evalNone = [] :=
  ⟨((runAutoML_error_tolerant base0 cexAuto evalNone).2 (fun _ _ _ => rfl)).1,
   ((runAutoML_error_tolerant base0 cexAuto evalNone).2 (fun _ _ _ => rfl)).2.1⟩

/-- Replace only the `earlyStoppingPatience` field of an `AutoMLConfig`. -/
def setEarlyStoppingPatience (a : AutoMLConfig) (p : ℕ) : AutoMLConfig :=
  ⟨a.maxTrials, a.validationSplit, p, a.crossValidationFolds⟩

/-- C9: `earlyStoppingPatience` has no effect: two runs identical in every
input except that field produce identical results and identical progress
calls.  (`trainModel` reads only the `ModelConfig`, which has no
early-stopping field at all, so its behaviour cannot depend on it.) -/
theorem runAutoML_ignores_patience (baseConfig : ModelConfig) (autoMLConfig : AutoMLConfig)
    (p : ℕ) (trialEval : ℕ → ModelConfig → ℕ → Option Metrics) :
    runAutoML baseConfig (setEarlyStoppingPatience autoMLConfig p) trialEval
      = runAutoML baseConfig autoMLConfig trialEval := by
  have h : finalState baseConfig (setEarlyStoppingPatience autoMLConfig p) trialEval
      = finalState baseConfig autoMLConfig trialEval := by
    unfold finalState trialsToRun autoMLStep setEarlyStoppingPatience
    rfl
  unfold runAutoML runAutoMLResults runAutoMLCalls
  rw [h]

/-! ## splitFeatureTarget lemmas -/

theorem enumFrom_filter_ne {α : Type} (j : ℕ) :
    ∀ (l : List α) (n : ℕ),
      ((l.enumFrom n).filter (fun p => p.1 != j)).map Prod.snd
        = if n ≤ j then l.eraseIdx (j - n) else l := by
  intro l
  induction l with
  | nil =>
    intro n
    by_cases h : n ≤ j <;> simp [h]
  | cons a l ih =>
    intro n
    simp only [List.enumFrom_cons, List.filter_cons]
    by_cases hnj : n = j
    · subst hnj
      rw [if_neg (by simp)]
      rw [ih (n + 1), if_neg (by omega), if_pos (le_refl n), Nat.sub_self,
        List.eraseIdx_cons_zero]
    · rw [if_pos (by simpa [bne_iff_ne] using hnj)]
      simp only [List.map_cons]
      rw [ih (n + 1)]
      by_cases hle : n ≤ j
      · rw [if_pos (by omega), if_pos hle]
        have hsub : j - n = (j - (n + 1)) + 1 := by omega
        rw [hsub, List.eraseIdx_cons_succ]
      · rw [if_neg (by omega), if_neg hle]

theorem enum_filter_ne {α : Type} (j : ℕ) (l : List α) :
    (l.enum.filter (fun p => p.1 != j)).map Prod.snd = l.eraseIdx j := by
  have h := enumFrom_filter_ne j l 0
  rw [if_pos (Nat.zero_le j), Nat.sub_zero] at h
  exact h

/-- C7: `splitFeatureTarget` with a target name present at (first) index
`j` returns the matrix with column position `j` removed from every row and
the column values as the target vector, preserving row order; with an
absent target name it returns an error whose message contains the missing
column name. -/
theorem splitFeatureTarget_spec (data : ProcessedData) (targetColumn : String) :
    (∀ j, data.features.indexOf? targetColumn = some j →
      splitFeatureTarget data targetColumn =
        Except.ok (data.matrix.map (fun row => row.eraseIdx j),
                   data.matrix.map (fun row => row.getD j 0))) ∧
    (data.features.indexOf? targetColumn = none →
      ∃ msg, splitFeatureTarget data targetColumn = Except.error msg ∧
        ∃ pre post, msg = pre ++ targetColumn ++ post) := by
  constructor
  · intro j hj
    simp only [splitFeatureTarget, hj]
    congr 1
    refine congrArg (fun x => (x, data.matrix.map fun row => row.getD j 0)) ?_
    apply List.map_congr_left
    intro row _
    exact enum_filter_ne j row
  · intro hn
    refine ⟨"Target column \"" ++ targetColumn ++ "\" not found in dataset", ?_,
      "Target column \"", "\" not found in dataset", rfl⟩
    simp only [splitFeatureTarget, hn]

/-- A concrete three-column dataset for the C7 witness. -/
def data7 : ProcessedData := ⟨[[1, 2, 3], [4, 5, 6]], ["a", "b", "target"]⟩

/-- Witness for C7: the target column "target" sits at index 2 of `data7`,
and "missing" is absent. -/
theorem splitFeatureTarget_spec_witness :
    splitFeatureTarget data7 "target"
      = Except.ok (data7.matrix.map (fun row => row.eraseIdx 2),
                   data7.matrix.map (fun row => row.getD 2 0)) ∧
    ∃ msg, splitFeatureTarget data7 "missing" = Except.error msg ∧
      ∃ pre post, msg = pre ++ "missing" ++ post :=
  ⟨(splitFeatureTarget_spec data7 "target").1 2 (by decide),
   (splitFeatureTarget_spec data7 "missing").2 (by decide)⟩

/-! ## Model catalog claims -/

/-- The config of the C8 deep-model example: hidden layers [64, 32] and
dropout rate 0.2. -/
def deepCfg : ModelConfig := ⟨0, 0, 0, none, some "deep", some [64, 32], some 0.2, none, none⟩

/-- The config of the C8 linear-model example. -/
def linearCfg : ModelConfig := ⟨0, 0, 0, none, some "linear", none, none, none, none⟩

/-- C8: building a deep model with input size 5, hidden layers [64, 32] and
dropout 0.2 yields dense layers of widths 64 and 32 in order, each followed
by a dropout(0.2) layer, then a single 1-unit sigmoid output; building a
linear model yields exactly one 1-unit sigmoid layer on the input. -/
theorem modelCatalog_deep_linear :
    createModel 5 deepCfg
      = [Layer.dense 64 "relu" (some 5), Layer.dropout 0.2, Layer.dense 32 "relu" none,
         Layer.dropout 0.2, Layer.dense 1 "sigmoid" none] ∧
    createModel 5 linearCfg = [Layer.dense 1 "sigmoid" (some 5)] := by
  constructor
  · with_unfolding_all decide
  · with_unfolding_all decide

/-- The empty configuration (no optional field set). -/
def emptyCfg : ModelConfig := ⟨0, 0, 0, none, none, none, none, none, none⟩

/-- C10 evidence (code bug): the model catalog performs no fail-fast check
on `inputFeatures`; with inputFeatureCount 0 or -3 it silently returns a
model whose first dense layer carries the nonsensical input shape, instead
of raising an error as the spec requires. -/
theorem createModel_no_failfast :
    createModel 0 emptyCfg = [Layer.dense 32 "relu" (some 0), Layer.dense 1 "sigmoid" none] ∧
    createModel (-3) emptyCfg
      = [Layer.dense 32 "relu" (some (-3)), Layer.dense 1 "sigmoid" none] := by
  constructor
  · rfl
  · rfl
